import Mathlib

/-!
A verification development for the revsynth research-campaign controller:
a loop that iterates ant-colony-optimization configurations forever,
invokes a black-box circuit synthesizer, scores its results with a quantum
cost function, filters them against a target cost, and persists accepted
solutions.  The Go source (`main.go`) is shallowly embedded below: pure
helpers become Lean functions, the fatal `log.Fatalln` exits become
`Option`/`Except` error values, the external synthesizer and the DynamoDB
repository become oracle parameters, and the infinite `for` loop becomes a
fuel-indexed run producing a trace of per-configuration records.
-/

/-- One ACO configuration from the input file (`AlgConfig` in main.go).
`float64` fields are carried as `Float`; the controller never computes with
them, it only copies them. -/
structure AlgConfig where
  numOfAnts : Int
  numOfIterations : Int
  alpha : Float
  beta : Float
  evaporationRate : Float
  localLoops : Int
  searchDepth : Int

/-- The process input (`Input` in main.go). -/
structure Input where
  targetQuantumCost : Int
  acoConfigs : List AlgConfig
  inputTT : List (List Int)
  targetVector : List Int

/-- A reversible gate as the controller consumes it (`circuit.Gate`):
a type name, target bits and control bits. -/
structure Gate where
  typeName : String
  targetBits : List Int
  controlBits : List Int
deriving DecidableEq

/-- A record persisted for an accepted result (`Solution` in main.go). -/
structure Solution where
  quantumCost : Int
  targetVector : List Int
  gates : List Gate
deriving DecidableEq

/-- The synthesizer's output (`aco.SynthesisResult` as consumed by main.go):
a complexity/residual indicator and the gate sequence found. -/
structure SynthesisResult where
  complexity : Int
  gates : List Gate
deriving DecidableEq

/-- The target specification handed to the synthesizer
(`circuit.TruthVector`). -/
structure TruthVector where
  inputs : List (List Int)
  vector : List Int
deriving DecidableEq

/-- The two gate factories wired into the campaign
(`circuit.NewCnotGateFactory()` and `circuit.NewFredkinGateFactory()`). -/
inductive GateFactory where
  | cnot
  | fredkin
deriving DecidableEq

/-- The synthesizer parameterization (`aco.Config` as filled in main.go). -/
structure AcoConfig where
  numOfAnts : Int
  numOfIterations : Int
  alpha : Float
  beta : Float
  evaporationRate : Float
  depositStrength : Int
  localLoops : Int
  searchDepth : Int

/-- `depositStrengthDefault` constant from main.go. -/
def depositStrengthDefault : Int := 100

/-- `vectorToStr` from main.go: build the list of decimal renderings by
appending in order (the Go `for _, el := range v` append loop), then wrap
the `", "`-join in brackets. -/
def vectorToStr (v : List Int) : String :=
  "[" ++ String.intercalate ", " (v.foldl (fun vss el => vss ++ [toString el]) []) ++ "]"

/-- The loop body of `gatesToStr`: running `i` from `n - 1` down to `0`,
append the rendering `TypeName(targetBits, controlBits)` of `gates[i]`. -/
def gatesToStrFrom (gates : List Gate) : Nat → List String
  | 0 => []
  | i + 1 =>
    match gates[i]? with
    | some gate =>
        (gate.typeName ++ "(" ++ vectorToStr gate.targetBits ++ ", "
          ++ vectorToStr gate.controlBits ++ ")") :: gatesToStrFrom gates i
    | none => gatesToStrFrom gates i

/-- `gatesToStr` from main.go: render gates by descending index and join
with `", "`. -/
def gatesToStr (gates : List Gate) : String :=
  String.intercalate ", " (gatesToStrFrom gates gates.length)

/-- The accumulator loop of `calcQuantumCost`: add 5 per `fredkin` gate and
1 per `cnot` gate; any other type name hits the `log.Fatalln` default
branch, modelled as `none`. -/
def calcQuantumCostFrom (qc : Int) : List Gate → Option Int
  | [] => some qc
  | gate :: rest =>
    match gate.typeName with
    | "fredkin" => calcQuantumCostFrom (qc + 5) rest
    | "cnot" => calcQuantumCostFrom (qc + 1) rest
    | _ => none

/-- `calcQuantumCost` from main.go, starting from `qc := 0`. -/
def calcQuantumCost (gates : List Gate) : Option Int :=
  calcQuantumCostFrom 0 gates

/-- Everything main.go hands to one `synth.Synthesise` call: the `aco.Config`,
the `circuit.TruthVector`, and the gate-factory list. -/
structure SynthInvocation where
  conf : AcoConfig
  target : TruthVector
  factories : List GateFactory

/-- The per-configuration synthesizer call site in `main`: the `aco.Config`
copies the configuration's seven tunables and injects
`depositStrengthDefault`; the truth vector is built from the shared input;
the factory list is the fixed cnot/fredkin pair. -/
def synthInvocationFor (inp : Input) (acoConfig : AlgConfig) : SynthInvocation :=
  { conf :=
      { numOfAnts := acoConfig.numOfAnts
        numOfIterations := acoConfig.numOfIterations
        alpha := acoConfig.alpha
        beta := acoConfig.beta
        evaporationRate := acoConfig.evaporationRate
        depositStrength := depositStrengthDefault
        localLoops := acoConfig.localLoops
        searchDepth := acoConfig.searchDepth }
    target := { inputs := inp.inputTT, vector := inp.targetVector }
    factories := [GateFactory.cnot, GateFactory.fredkin] }

/-- The two ways the loop body can abort the whole process
(`log.Fatalln` calls reachable from the loop): an unknown gate type inside
`calcQuantumCost`, or a failed `SaveSolution` (carrying the solution that
was being persisted). -/
inductive Halt where
  | unknownGate
  | saveFailed (s : Solution)
deriving DecidableEq

/-- The three normal outcomes of one configuration's loop body. -/
inductive Outcome where
  | skippedComplexity (c : Int)
  | skippedCost (qc : Int)
  | saved (s : Solution)
deriving DecidableEq

/-- The body of the inner `for _, acoConfig := range in.AcoConfigs` loop
after the synthesizer returned `res`: skip when `res.Complexity > 0`,
otherwise evaluate the quantum cost (fatal on an unknown gate type), skip
when it exceeds the target, otherwise build the `Solution` and persist it
(fatal when the repository reports an error, modelled by the `saveFails`
oracle). -/
def configStep (inp : Input) (res : SynthesisResult) (saveFails : Solution → Bool) :
    Except Halt Outcome :=
  if res.complexity > 0 then
    Except.ok (Outcome.skippedComplexity res.complexity)
  else
    match calcQuantumCost res.gates with
    | none => Except.error Halt.unknownGate
    | some qc =>
      if qc > inp.targetQuantumCost then
        Except.ok (Outcome.skippedCost qc)
      else
        let s : Solution :=
          { quantumCost := qc, targetVector := inp.targetVector, gates := res.gates }
        if saveFails s then Except.error (Halt.saveFailed s) else Except.ok (Outcome.saved s)

/-- One full configuration step at round `r`, index `i`: invoke the
synthesizer (an oracle, indexed by round and configuration position to model
its stochastic behaviour) on exactly what `synthInvocationFor` builds, then
run the loop body on its result. -/
def stepResult (inp : Input) (synthesise : SynthInvocation → Nat → Nat → SynthesisResult)
    (saveFails : Solution → Nat → Nat → Bool) (r i : Nat) (cfg : AlgConfig) :
    Except Halt Outcome :=
  configStep inp (synthesise (synthInvocationFor inp cfg) r i) (fun s => saveFails s r i)

/-- What one completed configuration step leaves in the trace. -/
structure StepRecord where
  round : Nat
  idx : Nat
  outcome : Outcome
deriving DecidableEq

/-- The inner loop of `main` for one round: process the remaining
configurations in list order starting at index `idx`; a fatal halt stops
the round immediately, recording nothing for the failing step. -/
def runConfigsFrom (inp : Input) (synthesise : SynthInvocation → Nat → Nat → SynthesisResult)
    (saveFails : Solution → Nat → Nat → Bool) (round : Nat) :
    Nat → List AlgConfig → List StepRecord × Option Halt
  | _, [] => ([], none)
  | idx, cfg :: rest =>
    match stepResult inp synthesise saveFails round idx cfg with
    | Except.error h => ([], some h)
    | Except.ok out =>
      let r := runConfigsFrom inp synthesise saveFails round (idx + 1) rest
      ({ round := round, idx := idx, outcome := out } :: r.1, r.2)

/-- The outer `for { ... }` loop of `main`, truncated to `fuel` rounds
(the Go loop is unbounded; every finite prefix of its behaviour is some
`runRounds ... fuel 0`): run round `round` over the full configuration
list, stop on a fatal halt, otherwise continue with the next round. -/
def runRounds (inp : Input) (synthesise : SynthInvocation → Nat → Nat → SynthesisResult)
    (saveFails : Solution → Nat → Nat → Bool) :
    Nat → Nat → List StepRecord × Option Halt
  | 0, _ => ([], none)
  | fuel + 1, round =>
    let r := runConfigsFrom inp synthesise saveFails round 0 inp.acoConfigs
    match r.2 with
    | some h => (r.1, some h)
    | none =>
      let r2 := runRounds inp synthesise saveFails fuel (round + 1)
      (r.1 ++ r2.1, r2.2)

/-! ### Helper lemmas about the renderers -/

lemma foldl_append_toString (v : List Int) (acc : List String) :
    v.foldl (fun vss el => vss ++ [toString el]) acc
      = acc ++ v.map (fun el => toString el) := by
  induction v generalizing acc with
  | nil => simp
  | cons x xs ih => simp [ih]

lemma gatesToStrFrom_eq_take (gates : List Gate) (n : Nat) (hn : n ≤ gates.length) :
    gatesToStrFrom gates n
      = ((gates.take n).reverse).map (fun gate =>
          gate.typeName ++ "(" ++ vectorToStr gate.targetBits ++ ", "
            ++ vectorToStr gate.controlBits ++ ")") := by
  induction n with
  | zero => simp [gatesToStrFrom]
  | succ m ih =>
    have hm : m < gates.length := Nat.lt_of_lt_of_le (Nat.lt_succ_self m) hn
    have hg : gates[m]? = some gates[m] := List.getElem?_eq_getElem hm
    simp only [gatesToStrFrom, hg]
    rw [ih (Nat.le_of_lt hm), List.take_succ, hg]
    simp only [Option.toList_some, List.reverse_append, List.reverse_cons,
      List.reverse_nil, List.nil_append, List.singleton_append, List.map_cons]

lemma gatesToStrFrom_length (gates : List Gate) :
    gatesToStrFrom gates gates.length
      = (gates.reverse).map (fun gate =>
          gate.typeName ++ "(" ++ vectorToStr gate.targetBits ++ ", "
            ++ vectorToStr gate.controlBits ++ ")") := by
  rw [gatesToStrFrom_eq_take gates gates.length (Nat.le_refl _), List.take_length]

/-! ### Claim theorems: rendering -/

/-- C5: the vector rendering is an opening bracket, the decimal renderings
of the elements in order joined by `", "`, and a closing bracket; in
particular `vectorToStr [1, 0, 1] = "[1, 0, 1]"` and the empty vector
renders as `"[]"`. -/
theorem vectorToStr_spec :
    (∀ v : List Int,
        vectorToStr v = "[" ++ String.intercalate ", " (v.map (fun el => toString el)) ++ "]")
      ∧ vectorToStr [1, 0, 1] = "[1, 0, 1]"
      ∧ vectorToStr ([] : List Int) = "[]" := by
  refine ⟨fun v => ?_, by decide, by decide⟩
  rw [vectorToStr, foldl_append_toString]
  simp

/-- C4: the gate-sequence rendering lists the gates in reverse of the order
returned by the synthesizer, each rendered as the type name followed by a
parenthesized pair of the target-bits rendering and the control-bits
rendering, joined by `", "`. -/
theorem gatesToStr_spec (gates : List Gate) :
    gatesToStr gates
      = String.intercalate ", " ((gates.reverse).map (fun gate =>
          gate.typeName ++ "(" ++ vectorToStr gate.targetBits ++ ", "
            ++ vectorToStr gate.controlBits ++ ")")) := by
  rw [gatesToStr, gatesToStrFrom_length]

/-- C10: the rendering of the empty gate sequence is the empty string,
not `"[]"`, unlike the rendering of the empty integer vector. -/
theorem gatesToStr_empty_spec :
    gatesToStr ([] : List Gate) = ""
      ∧ vectorToStr ([] : List Int) = "[]"
      ∧ gatesToStr ([] : List Gate) ≠ vectorToStr ([] : List Int) := by
  refine ⟨rfl, by decide, by decide⟩

/-! ### Helper lemmas about the cost evaluator -/

lemma calcQuantumCostFrom_cons (qc : Int) (g : Gate) (rest : List Gate) :
    calcQuantumCostFrom qc (g :: rest)
      = if g.typeName = "fredkin" then calcQuantumCostFrom (qc + 5) rest
        else if g.typeName = "cnot" then calcQuantumCostFrom (qc + 1) rest
        else none := by
  rcases g with ⟨tn, tb, cb⟩
  simp only [calcQuantumCostFrom]
  split
  · simp
  · simp
  · rename_i h1 h2
    rw [if_neg h1, if_neg h2]

lemma calcQuantumCostFrom_recognized (gates : List Gate) :
    ∀ qc : Int, (∀ g ∈ gates, g.typeName = "cnot" ∨ g.typeName = "fredkin") →
      calcQuantumCostFrom qc gates
        = some (qc + 1 * (gates.countP (fun g => g.typeName == "cnot") : Int)
                   + 5 * (gates.countP (fun g => g.typeName == "fredkin") : Int)) := by
  induction gates with
  | nil =>
    intro qc _
    simp [calcQuantumCostFrom]
  | cons g rest ih =>
    intro qc h
    have hrest : ∀ g' ∈ rest, g'.typeName = "cnot" ∨ g'.typeName = "fredkin" :=
      fun g' hm => h g' (List.mem_cons_of_mem _ hm)
    rw [calcQuantumCostFrom_cons]
    rcases h g (List.mem_cons_self g rest) with hc | hf
    · have hne : g.typeName ≠ "fredkin" := by rw [hc]; decide
      rw [if_neg hne, if_pos hc, ih (qc + 1) hrest]
      simp only [List.countP_cons, hc]
      simp only [Option.some.injEq]
      norm_num
      push_cast
      ring
    · rw [if_pos hf, ih (qc + 5) hrest]
      simp only [List.countP_cons, hf]
      simp only [Option.some.injEq]
      norm_num
      push_cast
      ring

lemma calcQuantumCostFrom_unknown (gates : List Gate) :
    ∀ qc : Int, (∃ g ∈ gates, g.typeName ≠ "cnot" ∧ g.typeName ≠ "fredkin") →
      calcQuantumCostFrom qc gates = none := by
  induction gates with
  | nil =>
    intro qc h
    simp at h
  | cons g rest ih =>
    intro qc h
    obtain ⟨b, hb, hb1, hb2⟩ := h
    rw [calcQuantumCostFrom_cons]
    split
    · rename_i hf
      rcases List.mem_cons.mp hb with hbg | hbr
      · exact absurd (hbg ▸ hf) hb2
      · exact ih (qc + 5) ⟨b, hbr, hb1, hb2⟩
    · split
      · rename_i hc
        rcases List.mem_cons.mp hb with hbg | hbr
        · exact absurd (hbg ▸ hc) hb1
        · exact ih (qc + 1) ⟨b, hbr, hb1, hb2⟩
      · rfl

/-! ### Claim theorems: cost evaluator -/

/-- C2: on a gate sequence whose every gate is a recognized type, the cost
evaluator returns 1 times the number of cnot gates plus 5 times the number
of fredkin gates. -/
theorem calcQuantumCost_recognized_spec (gates : List Gate)
    (h : ∀ g ∈ gates, g.typeName = "cnot" ∨ g.typeName = "fredkin") :
    calcQuantumCost gates
      = some (1 * (gates.countP (fun g => g.typeName == "cnot") : Int)
            + 5 * (gates.countP (fun g => g.typeName == "fredkin") : Int)) := by
  rw [calcQuantumCost, calcQuantumCostFrom_recognized gates 0 h]
  norm_num

/-- C2 witness: a concrete sequence of two cnot gates and one fredkin gate
satisfies the recognized-types hypothesis and costs 1·2 + 5·1 = 7. -/
theorem calcQuantumCost_recognized_witness :
    (∀ g ∈ [Gate.mk "cnot" [0] [1], Gate.mk "fredkin" [1, 2] [0], Gate.mk "cnot" [2] []],
        g.typeName = "cnot" ∨ g.typeName = "fredkin")
    ∧ calcQuantumCost
        [Gate.mk "cnot" [0] [1], Gate.mk "fredkin" [1, 2] [0], Gate.mk "cnot" [2] []]
        = some (1 * 2 + 5 * 1) := by
  refine ⟨by decide, ?_⟩
  rw [calcQuantumCost_recognized_spec _ (by decide)]
  decide

/-- C3: a gate sequence containing a gate whose type name is neither
`"cnot"` nor `"fredkin"` makes the cost evaluator signal the fatal
integrity error (modelled as `none`) instead of returning a cost. -/
theorem calcQuantumCost_unknown_spec (gates : List Gate)
    (h : ∃ g ∈ gates, g.typeName ≠ "cnot" ∧ g.typeName ≠ "fredkin") :
    calcQuantumCost gates = none := by
  rw [calcQuantumCost, calcQuantumCostFrom_unknown gates 0 h]

/-- C3 witness: a sequence containing a `"toffoli"` gate contains an
unrecognized type and evaluates to the fatal error. -/
theorem calcQuantumCost_unknown_witness :
    (∃ g ∈ [Gate.mk "cnot" [0] [], Gate.mk "toffoli" [2] [0, 1]],
        g.typeName ≠ "cnot" ∧ g.typeName ≠ "fredkin")
    ∧ calcQuantumCost [Gate.mk "cnot" [0] [], Gate.mk "toffoli" [2] [0, 1]] = none := by
  refine ⟨by decide, ?_⟩
  exact calcQuantumCost_unknown_spec _ (by decide)

/-! ### Claim theorems: acceptance filter -/

/-- C1 counterexample: with target cost 0, a synthesis result whose
complexity indicator is the nonzero value -1 is accepted and persisted
(the code only rejects strictly positive complexity), refuting acceptance
iff complexity equals 0. -/
theorem acceptance_negative_complexity_counterexample :
    configStep (Input.mk 0 [] [] []) (SynthesisResult.mk (-1) []) (fun _ => false)
        = Except.ok (Outcome.saved (Solution.mk 0 [] []))
      ∧ (SynthesisResult.mk (-1) []).complexity ≠ 0 := by
  exact ⟨rfl, by decide⟩

/-- C1 amended: a synthesis result is accepted (handed to persistence)
iff its complexity indicator is not strictly positive and the cost of its
gate sequence is defined and at most the input's target cost; any result
with strictly positive complexity is rejected before its cost is
considered.  For the nonnegative complexity values the synthesizer
contract produces, "not strictly positive" coincides with "equals 0". -/
theorem acceptance_spec (inp : Input) (res : SynthesisResult) (saveFails : Solution → Bool) :
    ((∃ s, configStep inp res saveFails = Except.ok (Outcome.saved s)
        ∨ configStep inp res saveFails = Except.error (Halt.saveFailed s))
      ↔ res.complexity ≤ 0
          ∧ ∃ qc, calcQuantumCost res.gates = some qc ∧ qc ≤ inp.targetQuantumCost)
    ∧ (res.complexity > 0 →
        configStep inp res saveFails = Except.ok (Outcome.skippedComplexity res.complexity)) := by
  by_cases hc : res.complexity > 0
  · constructor
    · simp [configStep, hc]
    · intro _
      simp [configStep, hc]
  · have hc' : res.complexity ≤ 0 := by omega
    constructor
    · cases hqc : calcQuantumCost res.gates with
      | none => simp [configStep, hc, hqc]
      | some qc =>
        by_cases hgt : qc > inp.targetQuantumCost
        · simp [configStep, hc, hqc, hgt]
        · by_cases hsf : saveFails
              { quantumCost := qc, targetVector := inp.targetVector, gates := res.gates }
          · simp [configStep, hc, hqc, hgt, hsf]
            exact ⟨hc', by omega⟩
          · simp [configStep, hc, hqc, hgt, hsf]
            exact ⟨hc', by omega⟩
    · intro h
      exact absurd h hc

/-- C1 amended witness: with target cost 1, an exact result (complexity 0)
consisting of one cnot gate is accepted; and a result with complexity 2 is
rejected as `skippedComplexity` without its cost being considered. -/
theorem acceptance_spec_witness :
    (∃ s, configStep (Input.mk 1 [] [] [1, 0]) (SynthesisResult.mk 0 [Gate.mk "cnot" [0] [1]])
            (fun _ => false)
          = Except.ok (Outcome.saved s)
        ∨ configStep (Input.mk 1 [] [] [1, 0]) (SynthesisResult.mk 0 [Gate.mk "cnot" [0] [1]])
            (fun _ => false)
          = Except.error (Halt.saveFailed s))
    ∧ configStep (Input.mk 1 [] [] [1, 0]) (SynthesisResult.mk 2 [Gate.mk "cnot" [0] [1]])
        (fun _ => false)
      = Except.ok (Outcome.skippedComplexity 2) := by
  constructor
  · exact (acceptance_spec (Input.mk 1 [] [] [1, 0])
      (SynthesisResult.mk 0 [Gate.mk "cnot" [0] [1]]) (fun _ => false)).1.mpr
      ⟨by decide, 1, by decide, by decide⟩
  · exact (acceptance_spec (Input.mk 1 [] [] [1, 0])
      (SynthesisResult.mk 2 [Gate.mk "cnot" [0] [1]]) (fun _ => false)).2 (by decide)

/-- C9: every solution handed to the persistence step (whether the save
succeeds or fails) carries as its quantum cost exactly the evaluated cost
of its gate sequence, which is at most the target cost; its target vector
is the shared input's target vector; and its gates are the gate sequence
of the synthesis result that passed the filter. -/
theorem solution_invariant_spec (inp : Input) (res : SynthesisResult)
    (saveFails : Solution → Bool) (s : Solution)
    (h : configStep inp res saveFails = Except.ok (Outcome.saved s)
       ∨ configStep inp res saveFails = Except.error (Halt.saveFailed s)) :
    calcQuantumCost s.gates = some s.quantumCost
      ∧ s.quantumCost ≤ inp.targetQuantumCost
      ∧ s.targetVector = inp.targetVector
      ∧ s.gates = res.gates := by
  by_cases hc : res.complexity > 0
  · simp [configStep, hc] at h
  · cases hqc : calcQuantumCost res.gates with
    | none =>
      simp [configStep, hc, hqc] at h
    | some qc =>
      by_cases hgt : qc > inp.targetQuantumCost
      · simp [configStep, hc, hqc, hgt] at h
      · by_cases hsf : saveFails
            { quantumCost := qc, targetVector := inp.targetVector, gates := res.gates }
        · simp [configStep, hc, hqc, hgt, hsf] at h
          rw [← h]
          exact ⟨hqc, show qc ≤ inp.targetQuantumCost by omega, rfl, rfl⟩
        · simp [configStep, hc, hqc, hgt, hsf] at h
          rw [← h]
          exact ⟨hqc, show qc ≤ inp.targetQuantumCost by omega, rfl, rfl⟩

/-- C9 witness: with target cost 5, an exact one-fredkin-gate result is
saved as a solution whose recorded cost 5 is the evaluated cost of its
gates, at most the target, with the input's target vector and the result's
gates. -/
theorem solution_invariant_witness :
    (configStep (Input.mk 5 [] [] [0, 1]) (SynthesisResult.mk 0 [Gate.mk "fredkin" [0, 1] []])
        (fun _ => false)
        = Except.ok (Outcome.saved (Solution.mk 5 [0, 1] [Gate.mk "fredkin" [0, 1] []]))
      ∨ configStep (Input.mk 5 [] [] [0, 1]) (SynthesisResult.mk 0 [Gate.mk "fredkin" [0, 1] []])
          (fun _ => false)
        = Except.error (Halt.saveFailed (Solution.mk 5 [0, 1] [Gate.mk "fredkin" [0, 1] []])))
    ∧ calcQuantumCost (Solution.mk 5 [0, 1] [Gate.mk "fredkin" [0, 1] []]).gates
        = some (Solution.mk 5 [0, 1] [Gate.mk "fredkin" [0, 1] []]).quantumCost
    ∧ (Solution.mk 5 [0, 1] [Gate.mk "fredkin" [0, 1] []]).quantumCost
        ≤ (Input.mk 5 [] [] [0, 1]).targetQuantumCost := by
  have h := solution_invariant_spec (Input.mk 5 [] [] [0, 1])
    (SynthesisResult.mk 0 [Gate.mk "fredkin" [0, 1] []]) (fun _ => false)
    (Solution.mk 5 [0, 1] [Gate.mk "fredkin" [0, 1] []]) (Or.inl rfl)
  exact ⟨Or.inl rfl, h.1, h.2.1⟩

/-! ### Claim theorems: synthesizer parameterization -/

/-- C8: for every input and configuration, the parameterization handed to
the synthesizer copies the configuration's seven tunables verbatim, sets
the deposit strength to the fixed constant 100 (not read from the input),
and the synthesizer is invoked with the shared input's truth table and
target vector and the fixed cnot/fredkin gate-constructor pair. -/
theorem synthInvocation_spec (inp : Input) (cfg : AlgConfig) :
    (synthInvocationFor inp cfg).conf.numOfAnts = cfg.numOfAnts
      ∧ (synthInvocationFor inp cfg).conf.numOfIterations = cfg.numOfIterations
      ∧ (synthInvocationFor inp cfg).conf.alpha = cfg.alpha
      ∧ (synthInvocationFor inp cfg).conf.beta = cfg.beta
      ∧ (synthInvocationFor inp cfg).conf.evaporationRate = cfg.evaporationRate
      ∧ (synthInvocationFor inp cfg).conf.localLoops = cfg.localLoops
      ∧ (synthInvocationFor inp cfg).conf.searchDepth = cfg.searchDepth
      ∧ (synthInvocationFor inp cfg).conf.depositStrength = 100
      ∧ (synthInvocationFor inp cfg).target.inputs = inp.inputTT
      ∧ (synthInvocationFor inp cfg).target.vector = inp.targetVector
      ∧ (synthInvocationFor inp cfg).factories = [GateFactory.cnot, GateFactory.fredkin] :=
  ⟨rfl, rfl, rfl, rfl, rfl, rfl, rfl, rfl, rfl, rfl, rfl⟩

/-! ### Helper lemmas about the campaign loop -/

lemma runConfigsFrom_all_ok (inp : Input)
    (synthesise : SynthInvocation → Nat → Nat → SynthesisResult)
    (saveFails : Solution → Nat → Nat → Bool) (round : Nat) :
    ∀ (cfgs : List AlgConfig) (idx : Nat),
      (∀ j cfg, cfgs[j]? = some cfg →
          ∃ out, stepResult inp synthesise saveFails round (idx + j) cfg = Except.ok out) →
      (runConfigsFrom inp synthesise saveFails round idx cfgs).2 = none
      ∧ (runConfigsFrom inp synthesise saveFails round idx cfgs).1.length = cfgs.length
      ∧ ∀ k rec, ((runConfigsFrom inp synthesise saveFails round idx cfgs).1)[k]? = some rec →
          rec.round = round ∧ rec.idx = idx + k := by
  intro cfgs
  induction cfgs with
  | nil =>
    intro idx _
    refine ⟨rfl, rfl, ?_⟩
    intro k rec hk
    simp [runConfigsFrom] at hk
  | cons cfg rest ih =>
    intro idx h
    obtain ⟨out, hout⟩ := h 0 cfg (by simp)
    have hout' : stepResult inp synthesise saveFails round idx cfg = Except.ok out := by
      simpa using hout
    have hrest : ∀ j c, rest[j]? = some c →
        ∃ o, stepResult inp synthesise saveFails round (idx + 1 + j) c = Except.ok o := by
      intro j c hj
      have hstep := h (j + 1) c (by simpa using hj)
      rwa [show idx + (j + 1) = idx + 1 + j by omega] at hstep
    obtain ⟨h2a, h2b, h2c⟩ := ih (idx + 1) hrest
    simp only [runConfigsFrom, hout']
    refine ⟨h2a, by simpa using h2b, ?_⟩
    intro k rec hk
    cases k with
    | zero =>
      simp only [List.getElem?_cons_zero, Option.some.injEq] at hk
      rw [← hk]
      exact ⟨rfl, rfl⟩
    | succ k' =>
      simp only [List.getElem?_cons_succ] at hk
      obtain ⟨e1, e2⟩ := h2c k' rec hk
      exact ⟨e1, by omega⟩

lemma runRounds_all_ok (inp : Input)
    (synthesise : SynthInvocation → Nat → Nat → SynthesisResult)
    (saveFails : Solution → Nat → Nat → Bool)
    (h : ∀ r j cfg, inp.acoConfigs[j]? = some cfg →
        ∃ out, stepResult inp synthesise saveFails r j cfg = Except.ok out) :
    ∀ (fuel start : Nat),
      (runRounds inp synthesise saveFails fuel start).2 = none
      ∧ (runRounds inp synthesise saveFails fuel start).1.length
          = fuel * inp.acoConfigs.length
      ∧ ∀ k rec, ((runRounds inp synthesise saveFails fuel start).1)[k]? = some rec →
          rec.round = start + k / inp.acoConfigs.length
            ∧ rec.idx = k % inp.acoConfigs.length := by
  intro fuel
  induction fuel with
  | zero =>
    intro start
    refine ⟨rfl, by simp [runRounds], ?_⟩
    intro k rec hk
    simp [runRounds] at hk
  | succ n ih =>
    intro start
    obtain ⟨ha, hb, hcidx⟩ := runConfigsFrom_all_ok inp synthesise saveFails start
      inp.acoConfigs 0 (fun j cfg hj => by simpa using h start j cfg hj)
    obtain ⟨ia, ib, ic⟩ := ih (start + 1)
    simp only [runRounds, ha]
    refine ⟨ia, ?_, ?_⟩
    · rw [List.length_append, hb, ib, Nat.succ_mul]
      omega
    · intro k rec hk
      by_cases hlt : k < inp.acoConfigs.length
      · rw [List.getElem?_append_left (by omega : k <
          (runConfigsFrom inp synthesise saveFails start 0 inp.acoConfigs).1.length)] at hk
        obtain ⟨e1, e2⟩ := hcidx k rec hk
        rw [e1, e2, Nat.div_eq_of_lt hlt, Nat.mod_eq_of_lt hlt]
        omega
      · push_neg at hlt
        rw [List.getElem?_append_right (by omega :
          (runConfigsFrom inp synthesise saveFails start 0 inp.acoConfigs).1.length ≤ k),
          hb] at hk
        obtain ⟨hklt, _⟩ := List.getElem?_eq_some_iff.mp hk
        have hlen0 : 0 < inp.acoConfigs.length := by
          rcases Nat.eq_zero_or_pos inp.acoConfigs.length with h0 | h0
          · rw [ib, h0, Nat.mul_zero] at hklt
            omega
          · exact h0
        obtain ⟨e1, e2⟩ := ic (k - inp.acoConfigs.length) rec hk
        rw [e1, e2, Nat.div_eq_sub_div hlen0 hlt, Nat.mod_eq_sub_mod hlt]
        omega

lemma runConfigsFrom_halt (inp : Input)
    (synthesise : SynthInvocation → Nat → Nat → SynthesisResult)
    (saveFails : Solution → Nat → Nat → Bool) (round : Nat) :
    ∀ (cfgs : List AlgConfig) (idx j : Nat) (cfg : AlgConfig) (h : Halt),
      (∀ j' cfg', j' < j → cfgs[j']? = some cfg' →
          ∃ out, stepResult inp synthesise saveFails round (idx + j') cfg' = Except.ok out) →
      cfgs[j]? = some cfg →
      stepResult inp synthesise saveFails round (idx + j) cfg = Except.error h →
      (runConfigsFrom inp synthesise saveFails round idx cfgs).2 = some h
      ∧ ∀ rec ∈ (runConfigsFrom inp synthesise saveFails round idx cfgs).1,
          rec.round = round ∧ rec.idx < idx + j := by
  intro cfgs
  induction cfgs with
  | nil =>
    intro idx j cfg h _ hj _
    simp at hj
  | cons c rest ih =>
    intro idx j cfg h hpre hj hstep
    cases j with
    | zero =>
      have hc : c = cfg := by simpa using hj
      subst hc
      have hstep' : stepResult inp synthesise saveFails round idx c = Except.error h := by
        simpa using hstep
      simp only [runConfigsFrom, hstep']
      refine ⟨trivial, ?_⟩
      intro rec hrec
      simp at hrec
    | succ j' =>
      obtain ⟨out0, hout0⟩ := hpre 0 c (Nat.succ_pos j') (by simp)
      have hout0' : stepResult inp synthesise saveFails round idx c = Except.ok out0 := by
        simpa using hout0
      have hrest := ih (idx + 1) j' cfg h
        (fun j'' cfg'' hlt hj'' => by
          have hh := hpre (j'' + 1) cfg'' (by omega) (by simpa using hj'')
          rwa [show idx + (j'' + 1) = idx + 1 + j'' by omega] at hh)
        (by simpa using hj)
        (by rwa [show idx + (j' + 1) = idx + 1 + j' by omega] at hstep)
      simp only [runConfigsFrom, hout0']
      refine ⟨hrest.1, ?_⟩
      intro rec hrec
      rcases List.mem_cons.mp hrec with hr0 | hrr
      · rw [hr0]
        exact ⟨rfl, show idx < idx + (j' + 1) by omega⟩
      · obtain ⟨e1, e2⟩ := hrest.2 rec hrr
        exact ⟨e1, by omega⟩

lemma runRounds_halt_mono (inp : Input)
    (synthesise : SynthInvocation → Nat → Nat → SynthesisResult)
    (saveFails : Solution → Nat → Nat → Bool) :
    ∀ (fuel fuel' start : Nat) (h : Halt),
      (runRounds inp synthesise saveFails fuel start).2 = some h →
      fuel ≤ fuel' →
      runRounds inp synthesise saveFails fuel' start
        = runRounds inp synthesise saveFails fuel start := by
  intro fuel
  induction fuel with
  | zero =>
    intro fuel' start h hh _
    simp [runRounds] at hh
  | succ n ih =>
    intro fuel' start h hh hle
    obtain ⟨m, rfl⟩ : ∃ m, fuel' = m + 1 := ⟨fuel' - 1, by omega⟩
    cases hr2 : (runConfigsFrom inp synthesise saveFails start 0 inp.acoConfigs).2 with
    | some h0 =>
      simp only [runRounds, hr2]
    | none =>
      have hh' : (runRounds inp synthesise saveFails n (start + 1)).2 = some h := by
        simpa only [runRounds, hr2] using hh
      have heq := ih m (start + 1) h hh' (by omega)
      simp only [runRounds, hr2, heq]

lemma runRounds_halt_at (inp : Input)
    (synthesise : SynthInvocation → Nat → Nat → SynthesisResult)
    (saveFails : Solution → Nat → Nat → Bool) (r i : Nat) (cfg : AlgConfig) (h : Halt)
    (hcfg : inp.acoConfigs[i]? = some cfg)
    (hstep : stepResult inp synthesise saveFails r i cfg = Except.error h)
    (hpreRound : ∀ j cfg', j < i → inp.acoConfigs[j]? = some cfg' →
        ∃ out, stepResult inp synthesise saveFails r j cfg' = Except.ok out)
    (hpre : ∀ r' j cfg', r' < r → inp.acoConfigs[j]? = some cfg' →
        ∃ out, stepResult inp synthesise saveFails r' j cfg' = Except.ok out) :
    ∀ (fuel : Nat), ∀ (start : Nat), start ≤ r → r < start + fuel →
      (runRounds inp synthesise saveFails fuel start).2 = some h
      ∧ ∀ rec ∈ (runRounds inp synthesise saveFails fuel start).1,
          rec.round < r ∨ (rec.round = r ∧ rec.idx < i) := by
  intro fuel
  induction fuel with
  | zero =>
    intro start hle hlt
    omega
  | succ n ih =>
    intro start hle hlt
    by_cases hsr : start = r
    · subst hsr
      have hhalt := runConfigsFrom_halt inp synthesise saveFails start inp.acoConfigs 0 i cfg h
        (fun j' cfg' hj' hcfg' => by simpa using hpreRound j' cfg' hj' hcfg')
        hcfg (by simpa using hstep)
      simp only [runRounds, hhalt.1]
      refine ⟨trivial, ?_⟩
      intro rec hrec
      obtain ⟨e1, e2⟩ := hhalt.2 rec hrec
      exact Or.inr ⟨e1, by omega⟩
    · have hslt : start < r := by omega
      obtain ⟨ha, _, hcidx⟩ := runConfigsFrom_all_ok inp synthesise saveFails start
        inp.acoConfigs 0 (fun j cfg' hj => by simpa using hpre start j cfg' hslt hj)
      simp only [runRounds, ha]
      have hrest := ih (start + 1) (by omega) (by omega)
      refine ⟨hrest.1, ?_⟩
      intro rec hrec
      rcases List.mem_append.mp hrec with hm1 | hm2
      · obtain ⟨k, hk⟩ := List.mem_iff_getElem?.mp hm1
        obtain ⟨e1, _⟩ := hcidx k rec hk
        exact Or.inl (by omega)
      · exact hrest.2 rec hm2

/-! ### Claim theorems: campaign loop -/

/-- C7: absent a fatal condition (every configuration step returns a normal
outcome), the campaign never halts: for every number of rounds `fuel` the
run completes all `fuel * numConfigs` configuration steps with no halt, and
the `k`-th step of the trace belongs to round `k / numConfigs` and
evaluates the configuration at load-order position `k % numConfigs` — the
same strictly increasing order in every round, each step finishing before
the next begins. -/
theorem campaign_loop_spec (inp : Input)
    (synthesise : SynthInvocation → Nat → Nat → SynthesisResult)
    (saveFails : Solution → Nat → Nat → Bool)
    (h : ∀ r j cfg, inp.acoConfigs[j]? = some cfg →
        ∃ out, stepResult inp synthesise saveFails r j cfg = Except.ok out) :
    ∀ fuel : Nat,
      (runRounds inp synthesise saveFails fuel 0).2 = none
      ∧ (runRounds inp synthesise saveFails fuel 0).1.length
          = fuel * inp.acoConfigs.length
      ∧ ∀ k rec, ((runRounds inp synthesise saveFails fuel 0).1)[k]? = some rec →
          rec.round = k / inp.acoConfigs.length ∧ rec.idx = k % inp.acoConfigs.length := by
  intro fuel
  obtain ⟨a, b, c⟩ := runRounds_all_ok inp synthesise saveFails h fuel 0
  refine ⟨a, b, ?_⟩
  intro k rec hk
  obtain ⟨e1, e2⟩ := c k rec hk
  omega

/-- C7 witness: with two configurations and a synthesizer oracle that always
reports complexity 1 (so every step is a normal rejection), a two-round run
halts nowhere, performs 2 · 2 steps, and its step 3 is round 1,
configuration 1. -/
theorem campaign_loop_witness :
    (runRounds
        (Input.mk 3 [AlgConfig.mk 1 2 0.5 0.5 0.1 1 3, AlgConfig.mk 2 4 1.0 2.0 0.2 2 5]
          [[0, 1], [1, 0]] [1, 0])
        (fun _ _ _ => SynthesisResult.mk 1 []) (fun _ _ _ => false) 2 0).2 = none
    ∧ (runRounds
        (Input.mk 3 [AlgConfig.mk 1 2 0.5 0.5 0.1 1 3, AlgConfig.mk 2 4 1.0 2.0 0.2 2 5]
          [[0, 1], [1, 0]] [1, 0])
        (fun _ _ _ => SynthesisResult.mk 1 []) (fun _ _ _ => false) 2 0).1.length = 2 * 2 := by
  have h := campaign_loop_spec
    (Input.mk 3 [AlgConfig.mk 1 2 0.5 0.5 0.1 1 3, AlgConfig.mk 2 4 1.0 2.0 0.2 2 5]
      [[0, 1], [1, 0]] [1, 0])
    (fun _ _ _ => SynthesisResult.mk 1 []) (fun _ _ _ => false)
    (fun _ _ _ _ => ⟨Outcome.skippedComplexity 1, rfl⟩) 2
  refine ⟨h.1, ?_⟩
  rw [h.2.1]
  rfl

/-- C6: if the persistence of an accepted solution fails at round `r`,
configuration `i` (every earlier step being non-fatal), the whole campaign
terminates there: for every fuel beyond round `r` the run is literally the
run truncated at round `r` (nothing further is processed, no retry), it
ends in the save-failure halt, and its trace holds only steps strictly
before round `r`, configuration `i`. -/
theorem persistence_failure_spec (inp : Input)
    (synthesise : SynthInvocation → Nat → Nat → SynthesisResult)
    (saveFails : Solution → Nat → Nat → Bool) (r i : Nat) (cfg : AlgConfig) (s : Solution)
    (hcfg : inp.acoConfigs[i]? = some cfg)
    (hstep : stepResult inp synthesise saveFails r i cfg = Except.error (Halt.saveFailed s))
    (hpreRound : ∀ j cfg', j < i → inp.acoConfigs[j]? = some cfg' →
        ∃ out, stepResult inp synthesise saveFails r j cfg' = Except.ok out)
    (hpre : ∀ r' j cfg', r' < r → inp.acoConfigs[j]? = some cfg' →
        ∃ out, stepResult inp synthesise saveFails r' j cfg' = Except.ok out) :
    ∀ fuel : Nat, r < fuel →
      (runRounds inp synthesise saveFails fuel 0).2 = some (Halt.saveFailed s)
      ∧ (∀ rec ∈ (runRounds inp synthesise saveFails fuel 0).1,
          rec.round < r ∨ (rec.round = r ∧ rec.idx < i))
      ∧ runRounds inp synthesise saveFails fuel 0
          = runRounds inp synthesise saveFails (r + 1) 0 := by
  intro fuel hfuel
  have hat := runRounds_halt_at inp synthesise saveFails r i cfg (Halt.saveFailed s)
    hcfg hstep hpreRound hpre fuel 0 (by omega) (by omega)
  have hat1 := runRounds_halt_at inp synthesise saveFails r i cfg (Halt.saveFailed s)
    hcfg hstep hpreRound hpre (r + 1) 0 (by omega) (by omega)
  have hmono := runRounds_halt_mono inp synthesise saveFails (r + 1) fuel 0
    (Halt.saveFailed s) hat1.1 (by omega)
  exact ⟨hat.1, hat.2, hmono⟩

/-- C6 witness: one configuration, a synthesizer oracle returning an exact
empty circuit (cost 0, within target 0), and a repository that always
errors: the very first step's save fails, the one-round run halts with that
failure, and its trace is empty. -/
theorem persistence_failure_witness :
    (runRounds (Input.mk 0 [AlgConfig.mk 1 1 0.5 0.5 0.1 1 1] [] [])
        (fun _ _ _ => SynthesisResult.mk 0 []) (fun _ _ _ => true) 1 0).2
      = some (Halt.saveFailed (Solution.mk 0 [] []))
    ∧ (runRounds (Input.mk 0 [AlgConfig.mk 1 1 0.5 0.5 0.1 1 1] [] [])
        (fun _ _ _ => SynthesisResult.mk 0 []) (fun _ _ _ => true) 1 0).1 = [] := by
  have h := persistence_failure_spec
    (Input.mk 0 [AlgConfig.mk 1 1 0.5 0.5 0.1 1 1] [] [])
    (fun _ _ _ => SynthesisResult.mk 0 []) (fun _ _ _ => true) 0 0
    (AlgConfig.mk 1 1 0.5 0.5 0.1 1 1) (Solution.mk 0 [] [])
    rfl rfl
    (fun j cfg' hj _ => absurd hj (Nat.not_lt_zero j))
    (fun r' j cfg' hr' _ => absurd hr' (Nat.not_lt_zero r'))
    1 Nat.zero_lt_one
  exact ⟨h.1, rfl⟩
